import Mathlib

/-!
Verification development for the Smart-Task-Assistant repository.

The repository contains two server implementations of the same task-store
contract: a JSON-file backed one (src/server.py) and a MongoDB backed one
(src/backend/server.py).  Both are shallowly embedded below:

* Calendar dates are represented by their day number: the number of days
  since 0000-03-01 of the proleptic Gregorian calendar (the epoch of the
  standard civil-from-days algorithm).  Day 306 is 0001-01-01, a Monday,
  so the Python convention weekday() with Monday = 0 is (z + 2) % 7.
* The two external dateparser entry points (dateparser.parse and
  dateparser.search.search_dates) are opaque third-party libraries; they
  enter the embedding as function parameters dp and sd.
* Python regular-expression checks of the form re.search(r"\b...\b", s)
  are embedded by wordBounded, an executable word-boundary substring
  search over the characters of s.
-/

namespace TaskAssistant

/-- Days since 0000-03-01 of a Gregorian date (days-from-civil algorithm). -/
def daysFromCivil (y m d : Nat) : Nat :=
  let y' := if m ≤ 2 then y - 1 else y
  let era := y' / 400
  let yoe := y' % 400
  let mp := if 2 < m then m - 3 else m + 9
  let doy := (153 * mp + 2) / 5 + (d - 1)
  let doe := yoe * 365 + yoe / 4 - yoe / 100 + doy
  era * 146097 + doe

/-- Python datetime.weekday() of day number z: Monday = 0 ... Sunday = 6. -/
def weekdayOf (z : Nat) : Nat := (z + 2) % 7

/-- Python modulo: result has the sign of the divisor (nonnegative for 7). -/
def pymod (a b : Int) : Int := (a % b + b) % b

/-- ASCII whitespace stripped by Python str.strip(). -/
def isStripSpace (c : Char) : Bool :=
  c == ' ' || c == '\t' || c == '\n' || c == '\r' || c == '\x0b' || c == '\x0c'

/-- Embeds date_string.lower().strip() of the source: characters lowered,
leading and trailing whitespace removed. -/
def lowerStrip (s : String) : String :=
  String.mk ((((s.data.map Char.toLower).dropWhile
    isStripSpace).reverse.dropWhile isStripSpace).reverse)

/-- Word characters of the regex \b boundary: [A-Za-z0-9_]. -/
def isWordChar (c : Char) : Bool := c.isAlphanum || c == '_'

/-- The pattern occurs at position i of l with regex word boundaries on
both sides (both ends of every pattern used here are word characters). -/
def matchesAt (l p : List Char) (i : Nat) : Bool :=
  ((l.drop i).take p.length == p) &&
  (i == 0 || !(isWordChar (l.getD (i - 1) ' '))) &&
  (i + p.length == l.length || !(isWordChar (l.getD (i + p.length) ' ')))

/-- Embeds re.search(r"\b<pat>\b", s) for a literal pattern pat. -/
def wordBounded (pat s : String) : Bool :=
  (List.range (s.toList.length + 1)).any (matchesAt s.toList pat.toList)

/-- Digit scan for the regex group (\d+) starting at a list position. -/
def digitsVal (ds : List Char) : Nat :=
  ds.foldl (fun acc c => 10 * acc + (c.toNat - 48)) 0

/-- Match attempt for re.search(r"\bin (\d+) weeks?\b", s) at position i:
word boundary, literal "in ", one or more digits, literal " week", an
optional "s", word boundary.  Returns the captured number on success. -/
def inWeeksAt (l : List Char) (i : Nat) : Option Nat :=
  if !(i == 0 || !(isWordChar (l.getD (i - 1) ' '))) then none
  else if !((l.drop i).take 3 == ['i', 'n', ' ']) then none
  else
    let rest := l.drop (i + 3)
    let ds := rest.takeWhile Char.isDigit
    if ds.isEmpty then none
    else
      let rest2 := rest.drop ds.length
      if !(rest2.take 5 == [' ', 'w', 'e', 'e', 'k']) then none
      else
        let rest3 := rest2.drop 5
        let after := if rest3.headD ' ' == 's' then rest3.drop 1 else rest3
        if after.isEmpty || !(isWordChar (after.headD ' ')) then
          some (digitsVal ds)
        else none

/-- Leftmost match of re.search(r"\bin (\d+) weeks?\b", s). -/
def findInWeeks (s : String) : Option Nat :=
  (List.range (s.toList.length + 1)).findSome? (inWeeksAt s.toList)

/-- The weekday_map dictionary of parse_due_date, in insertion order. -/
def weekdayPairs : List (String × Nat) :=
  [("monday", 0), ("mon", 0),
   ("tuesday", 1), ("tue", 1), ("tues", 1),
   ("wednesday", 2), ("wed", 2),
   ("thursday", 3), ("thu", 3), ("thur", 3), ("thurs", 3),
   ("friday", 4), ("fri", 4),
   ("saturday", 5), ("sat", 5),
   ("sunday", 6), ("sun", 6)]

/-- First weekday_map entry whose "next <day>" pattern matches. -/
def nextWeekdayHit (ls : String) : Option Nat :=
  (weekdayPairs.find? (fun p => wordBounded ("next " ++ p.1) ls)).map (·.2)

/-- First weekday_map entry whose "this <day>" pattern matches. -/
def thisWeekdayHit (ls : String) : Option Nat :=
  (weekdayPairs.find? (fun p => wordBounded ("this " ++ p.1) ls)).map (·.2)

/-- days_ahead of the "next <weekday>" rule: (day_num - current_weekday) % 7
under Python modulo, bumped to 7 when it is 0. -/
def nextDelta (w dnum : Nat) : Int :=
  let da := pymod ((dnum : Int) - (w : Int)) 7
  if da = 0 then 7 else da

/-- days_ahead of the "this <weekday>" rule. -/
def thisDelta (w dnum : Nat) : Nat :=
  if w = dnum then 0
  else if w < dnum then dnum - w
  else (7 - w) + dnum

/-- days_until_next_monday of the week rules. -/
def daysToNextMonday (w : Nat) : Nat := if w ≠ 0 then 7 - w else 7

/-- The rule cascade of parse_due_date in src/backend/server.py, returning
the resolved day number.  dp embeds dateparser.parse (with the settings of
the source) and sd embeds dateparser.search.search_dates; now is the
reference day number.  The Python function formats the result with
strftime("%Y-%m-%d"); the embedding keeps the day number itself. -/
def parseCascade (dp sd : String → Option Nat) (now : Nat) (s : String) :
    Option Nat :=
  if s = "" then none
  else
    let ls := lowerStrip s
    let w := weekdayOf now
    if wordBounded "next week" ls || wordBounded "beginning of next week" ls
        || wordBounded "start of next week" ls then
      some (now + daysToNextMonday w)
    else if wordBounded "end of next week" ls then
      some (now + daysToNextMonday w + 4)
    else if wordBounded "this week" ls || wordBounded "beginning of this week" ls
        || wordBounded "start of this week" ls then
      some (if w = 0 then now else now - w)
    else if wordBounded "end of this week" ls || wordBounded "end of week" ls then
      some (if w ≤ 4 then now + (4 - w) else now + (7 - w) + 4)
    else
      match findInWeeks ls with
      | some n => some (now + 7 * n)
      | none =>
        match nextWeekdayHit ls with
        | some dnum => some (now + (nextDelta w dnum).toNat)
        | none =>
          match thisWeekdayHit ls with
          | some dnum => some (now + thisDelta w dnum)
          | none =>
            match dp s with
            | some d => some d
            | none => sd s

/-- Syntactic validity of an ISO YYYY-MM-DD calendar date string. -/
def isLeap (y : Nat) : Bool := (y % 4 == 0 && y % 100 != 0) || y % 400 == 0

/-- Number of days of month m in year y. -/
def daysInMonth (y m : Nat) : Nat :=
  if m = 2 then (if isLeap y then 29 else 28)
  else if m = 4 || m = 6 || m = 9 || m = 11 then 30 else 31

/-- Numeric value of a digit character. -/
def digitVal (c : Char) : Nat := c.toNat - 48

/-- Checks that a string is a valid ISO YYYY-MM-DD calendar date. -/
def validIso (s : String) : Bool :=
  match s.toList with
  | [y1, y2, y3, y4, h1, m1, m2, h2, d1, d2] =>
    y1.isDigit && y2.isDigit && y3.isDigit && y4.isDigit &&
    m1.isDigit && m2.isDigit && d1.isDigit && d2.isDigit &&
    h1 == '-' && h2 == '-' &&
    let y := digitsVal [y1, y2, y3, y4]
    let m := digitsVal [m1, m2]
    let d := digitsVal [d1, d2]
    1 ≤ m && m ≤ 12 && 1 ≤ d && d ≤ daysInMonth y m
  | _ => false

/-! ## The JSON-file server (src/server.py)

The task store is the JSON array held in tasks.json; load_tasks / save_tasks
become explicit state passing over a list of task records.  Wall-clock
timestamps (datetime.now().isoformat()) enter as string parameters. -/

/-- A task record of src/server.py.  completed_at models the optional
dictionary key: none when the key is absent. -/
structure Task where
  id : Nat
  title : String
  due_date : Option String
  done : Bool
  created_at : String
  completed_at : Option String
deriving Repr, DecidableEq

/-- The error dictionary returned by add_task on resolution failure. -/
structure AddErr where
  error : String
  received_date : String
deriving Repr, DecidableEq

/-- The error message text of add_task for an unresolvable due date. -/
def dueErrMsg (d : String) : String :=
  "Could not understand the due date: " ++ d ++
    ". Try formats like 2025-10-15, tomorrow, next Monday, etc."

/-- add_task of src/server.py.  parse embeds parse_due_date (whose output,
when some, is a strftime(%Y-%m-%d) string); createdAt embeds
datetime.now().isoformat().  Returns the new store and the response:
ok with the created task, or the error dictionary with the store
untouched.  Note the id is computed as len(tasks) + 1. -/
def addTask (parse : String → Option String) (createdAt : String)
    (tasks : List Task) (title : String) (due : Option String) :
    List Task × Except AddErr Task :=
  let mk : Option String → Task := fun pd =>
    { id := tasks.length + 1, title := title, due_date := pd,
      done := false, created_at := createdAt, completed_at := none }
  match due with
  | none => (tasks ++ [mk none], Except.ok (mk none))
  | some s =>
    if s = "" then (tasks ++ [mk none], Except.ok (mk none))
    else
      match parse s with
      | none => (tasks, Except.error { error := dueErrMsg s, received_date := s })
      | some d => (tasks ++ [mk (some d)], Except.ok (mk (some d)))

/-- delete_task of src/server.py: remove the first task whose id matches
and return its snapshot; otherwise the not-found error. -/
def deleteTask : List Task → Nat → List Task × Except String Task
  | [], i => ([], Except.error ("Task with ID " ++ toString i ++ " not found."))
  | t :: ts, i =>
    if t.id = i then (ts, Except.ok t)
    else
      let r := deleteTask ts i
      (t :: r.1, r.2)

/-- complete_task of src/server.py: mark the first task whose id matches as
done and stamp completed_at with the current timestamp. -/
def completeTask (now : String) : List Task → Nat → List Task × Except String Task
  | [], i => ([], Except.error ("Task with ID " ++ toString i ++ " not found."))
  | t :: ts, i =>
    if t.id = i then
      let t' := { t with done := true, completed_at := some now }
      (t' :: ts, Except.ok t')
    else
      let r := completeTask now ts i
      (t :: r.1, r.2)

/-- list_tasks of src/server.py: the stored array in file order, with its
count.  No sorting is performed. -/
def listTasks (tasks : List Task) : List Task × Nat := (tasks, tasks.length)

/-- Python truthiness of the optional due_date field. -/
def dueTruthy : Option String → Bool
  | none => false
  | some s => s ≠ ""

/-- Lexicographic code-point comparison of character lists: the semantics
of the Python string less-than used by the overdue filter. -/
def lexLt : List Char → List Char → Bool
  | [], [] => false
  | [], _ :: _ => true
  | _ :: _, [] => false
  | a :: as, b :: bs =>
    if a < b then true else if a = b then lexLt as bs else false

/-- Python string less-than. -/
def pyStrLt (a b : String) : Bool := lexLt a.data b.data

/-- The record returned by summarize_tasks. -/
structure Summary where
  pending : List Task
  completed : List Task
  overdue : List Task
  total : Nat
  pendingCount : Nat
  completedCount : Nat
  overdueCount : Nat
deriving Repr, DecidableEq

/-- summarize_tasks of src/server.py; today embeds
datetime.now().strftime(%Y-%m-%d).  The overdue filter compares the
due-date string with today by the string less-than of the source. -/
def summarizeTasks (today : String) (tasks : List Task) : Summary :=
  let done := tasks.filter (fun t => t.done)
  let pending := tasks.filter (fun t => !t.done)
  let overdue := pending.filter (fun t =>
    dueTruthy t.due_date && pyStrLt (t.due_date.getD "") today)
  { pending := pending, completed := done, overdue := overdue,
    total := tasks.length, pendingCount := pending.length,
    completedCount := done.length, overdueCount := overdue.length }

/-- The store states reachable from the empty tasks.json through the
mutating operations of src/server.py, with arbitrary resolver results,
titles, due-date texts and timestamps at every step. -/
inductive Reach : List Task → Prop
  | init : Reach []
  | add (parse : String → Option String) (c title : String) (due : Option String)
      {s : List Task} : Reach s → Reach (addTask parse c s title due).1
  | del (i : Nat) {s : List Task} : Reach s → Reach (deleteTask s i).1
  | compl (now : String) (i : Nat) {s : List Task} :
      Reach s → Reach (completeTask now s i).1

/-! ## The MongoDB server (src/backend/server.py)

The tasks collection becomes a list of task documents.  Resolved dates are
kept as day numbers; the strftime(%Y-%m-%d) strings the source stores and
compares with $gte/$lte compare exactly like the day numbers do, because
ISO date strings with four-digit years are ordered lexicographically in
chronological order. -/

/-- A task document of the MongoDB backend. -/
structure BTask where
  id : Nat
  title : String
  due_date : Option Nat
  done : Bool
  created_at : String
  completed_at : Option String
deriving Repr, DecidableEq

/-- get_next_task_id of src/backend/server.py: the maximal stored id plus
one (the find_one sorted by id descending), or 1 when no document has an
id. -/
def getNextTaskId (tasks : List BTask) : Nat :=
  match (tasks.map BTask.id).max? with
  | some m => m + 1
  | none => 1

/-- The record returned by tasks_by_range on success. -/
structure RangeOut where
  start_date : Nat
  end_date : Nat
  tasks : List BTask
  count : Nat
  days : Nat
deriving Repr, DecidableEq

/-- The body of tasks_by_range after both endpoints resolved: swap when
parsed_start > parsed_end, filter documents whose due_date lies in the
inclusive range, report (end - start).days + 1. -/
def rangeGo (tasks : List BTask) (s0 e0 : Nat) : RangeOut :=
  let p := if e0 < s0 then (e0, s0) else (s0, e0)
  let sel := tasks.filter (fun t =>
    match t.due_date with
    | some d => decide (p.1 ≤ d) && decide (d ≤ p.2)
    | none => false)
  { start_date := p.1, end_date := p.2, tasks := sel,
    count := sel.length, days := p.2 - p.1 + 1 }

/-- tasks_by_range of src/backend/server.py: both endpoints go through the
parse_due_date cascade (the end defaults to the start when absent or
empty), then rangeGo. -/
def tasksByRange (dp sd : String → Option Nat) (now : Nat)
    (tasks : List BTask) (start : String) (endo : Option String) :
    Except String RangeOut :=
  match parseCascade dp sd now start with
  | none => Except.error ("Could not understand start date: " ++ start)
  | some s0 =>
    match endo with
    | some e =>
      if e = "" then Except.ok (rangeGo tasks s0 s0)
      else
        match parseCascade dp sd now e with
        | none => Except.error ("Could not understand end date: " ++ e)
        | some e0 => Except.ok (rangeGo tasks s0 e0)
    | none => Except.ok (rangeGo tasks s0 s0)

/-- tasks_by_range of src/server.py.  Here both endpoints go straight to
the external dateparser, embedded as dp2, a resolver taking the text and
the RELATIVE_BASE day it is anchored at: the start text is anchored at
now, but the end text is anchored at the resolved start (the source sets
RELATIVE_BASE: parsed_start, commented "Base end date relative to
start").  Swap, inclusive filter and day count are the shared rangeGo. -/
def fileTasksByRange (dp2 : String → Nat → Option Nat) (now : Nat)
    (tasks : List BTask) (start : String) (endo : Option String) :
    Except String RangeOut :=
  match dp2 start now with
  | none => Except.error ("Could not understand start date: " ++ start)
  | some s0 =>
    match endo with
    | some e =>
      if e = "" then Except.ok (rangeGo tasks s0 s0)
      else
        match dp2 e s0 with
        | none => Except.error ("Could not understand end date: " ++ e)
        | some e0 => Except.ok (rangeGo tasks s0 e0)
    | none => Except.ok (rangeGo tasks s0 s0)

/-! ## Shared concrete instances used by the theorems below -/

/-- A resolver that never succeeds (used where resolution is not exercised). -/
def pNone : String → Option String := fun _ => none

/-- A day-number resolver that never succeeds, standing for the external
dateparser on inputs it cannot handle. -/
def dpNone : String → Option Nat := fun _ => none

/-- A concrete resolver knowing a single phrase, used as witness input. -/
def pMon : String → Option String :=
  fun x => if x = "next monday" then some "2025-10-20" else none

/-- A concrete base-dependent resolver with the documented dateparser
readings of two relative phrases: "tomorrow" is one day after its
RELATIVE_BASE and "in 3 days" three days after it. -/
def dpRel : String → Nat → Option Nat :=
  fun s base =>
    if s = "tomorrow" then some (base + 1)
    else if s = "in 3 days" then some (base + 3)
    else none

/-- The full weekday names, indexed by the Python weekday number. -/
def dayName (k : Fin 7) : String :=
  ["monday", "tuesday", "wednesday", "thursday", "friday",
    "saturday", "sunday"].get ⟨k.val, k.isLt⟩

/-! ## Claims about the resolver cascade -/

/-- C1.  The claim says resolving "end of next week" returns the Friday of
the following week (next Monday + 4 days) under first-rule-wins.  The code
disagrees: the first rule of the cascade matches the word-bounded substring
"next week" inside "end of next week" and returns the Monday of the next
week, so the dedicated Friday rule below it is unreachable for this phrase.
At reference Wednesday 2025-10-15 the cascade yields 2025-10-20 (a Monday),
not the 2025-10-24 (Friday) the claim and the docstring of parse_due_date
promise. -/
theorem endOfNextWeek_resolves_to_monday_not_friday :
    parseCascade dpNone dpNone (daysFromCivil 2025 10 15) "end of next week"
      = some (daysFromCivil 2025 10 20) ∧
    weekdayOf (daysFromCivil 2025 10 20) = 0 ∧
    daysFromCivil 2025 10 20 ≠ daysFromCivil 2025 10 24 ∧
    weekdayOf (daysFromCivil 2025 10 24) = 4 := by
  decide

/-- Arithmetic of the "next weekday" rule: the computed days_ahead lies in
1..7, is exactly 7 when the reference day already falls on the requested
weekday, and lands on the requested weekday. -/
theorem nextDelta_spec (w k : Nat) :
    1 ≤ nextDelta w k ∧ nextDelta w k ≤ 7 ∧ (w = k → nextDelta w k = 7) ∧
    (w + (nextDelta w k).toNat) % 7 = k % 7 := by
  simp only [nextDelta, pymod]
  split_ifs <;> omega

/-- C8.  For every weekday and every reference day, resolving
"next <weekday>" yields the next occurrence of that weekday strictly after
the reference day, at most 7 days ahead, and exactly 7 days ahead when the
reference day is already that weekday — so the resolution never equals the
reference date. -/
theorem nextWeekday_strictly_future (k : Fin 7) (dp sd : String → Option Nat)
    (now : Nat) :
    parseCascade dp sd now ("next " ++ dayName k)
      = some (now + (nextDelta (weekdayOf now) k.val).toNat) ∧
    now < now + (nextDelta (weekdayOf now) k.val).toNat ∧
    now + (nextDelta (weekdayOf now) k.val).toNat ≤ now + 7 ∧
    weekdayOf (now + (nextDelta (weekdayOf now) k.val).toNat) = k.val ∧
    (weekdayOf now = k.val →
      now + (nextDelta (weekdayOf now) k.val).toNat = now + 7) := by
  have hd := nextDelta_spec (weekdayOf now) k.val
  refine ⟨?_, ?_, ?_, ?_, ?_⟩
  · fin_cases k <;> rfl
  · omega
  · omega
  · have hk := k.isLt
    simp only [weekdayOf] at hd ⊢
    omega
  · intro h
    have := hd.2.2.1 h
    omega

/-- Witness for C8: at reference Wednesday 2025-10-15 (day 739844),
"next friday" resolves two days ahead, and "next wednesday" resolves a full
seven days ahead. -/
theorem nextWeekday_strictly_future_witness :
    parseCascade dpNone dpNone 739844 "next friday"
      = some (739844 + (nextDelta (weekdayOf 739844) 4).toNat) ∧
    739844 + (nextDelta (weekdayOf 739844) 2).toNat = 739844 + 7 :=
  ⟨(nextWeekday_strictly_future ⟨4, by omega⟩ dpNone dpNone 739844).1,
   (nextWeekday_strictly_future ⟨2, by omega⟩ dpNone dpNone 739844).2.2.2.2
     (by decide)⟩

/-! ## Claims about the task store -/

/-- C2.  The claim says add assigns id = max existing id + 1 (1 when the
store is empty) so that ids are never reused after deletion.  The MongoDB
backend's get_next_task_id does behave that way, but add_task of
src/server.py computes len(tasks) + 1: after add, add, delete id 1, add,
the final add hands out id 2 although a task with id 2 survives, so the
store holds the duplicate id list [2, 2]. -/
theorem add_reuses_id_after_delete :
    ((addTask pNone "t4" ((deleteTask ((addTask pNone "t2"
          ((addTask pNone "t1" [] "a" none).1) "b" none).1) 1).1)
        "c" none).1).map Task.id = [2, 2] ∧
    ¬ (((addTask pNone "t4" ((deleteTask ((addTask pNone "t2"
          ((addTask pNone "t1" [] "a" none).1) "b" none).1) 1).1)
        "c" none).1).map Task.id).Nodup ∧
    getNextTaskId [] = 1 ∧
    getNextTaskId [⟨2, "x", none, false, "c", none⟩,
      ⟨5, "y", none, false, "c", none⟩,
      ⟨1, "z", none, false, "c", none⟩] = 6 := by
  decide

/-- C3.  For a given (truthy) due-date text: when resolution fails, add
returns the error record citing the original text and leaves the store
untouched; when resolution succeeds, the store grows by exactly one task
whose due_date equals the resolved value, and — whenever the resolver only
emits valid ISO YYYY-MM-DD strings, as strftime(%Y-%m-%d) does — that
due date is a valid ISO date. -/
theorem addTask_resolution (parse : String → Option String) (c : String)
    (tasks : List Task) (title s : String) (hs : s ≠ "")
    (hv : ∀ x r, parse x = some r → validIso r = true) :
    (parse s = none →
      addTask parse c tasks title (some s) =
        (tasks, Except.error { error := dueErrMsg s, received_date := s })) ∧
    (∀ d, parse s = some d →
      ∃ t : Task, addTask parse c tasks title (some s) =
          (tasks ++ [t], Except.ok t) ∧
        t.due_date = some d ∧ validIso d = true) := by
  constructor
  · intro hp
    simp [addTask, hs, hp]
  · intro d hp
    refine ⟨⟨tasks.length + 1, title, some d, false, c, none⟩, ?_, rfl,
      hv s d hp⟩
    simp [addTask, hs, hp]

/-- Witness for C3: with a resolver failing on "gibberish" the store is
untouched and the error cites the text; with a resolver mapping
"next monday" to 2025-10-20 the task is appended carrying that valid ISO
date. -/
theorem addTask_resolution_witness :
    addTask pMon "ts" [] "report" (some "gibberish") =
      ([], Except.error
        { error := dueErrMsg "gibberish", received_date := "gibberish" }) ∧
    ∃ t : Task, addTask pMon "ts" [] "report" (some "next monday") =
        ([t], Except.ok t) ∧
      t.due_date = some "2025-10-20" ∧ validIso "2025-10-20" = true :=
  ⟨(addTask_resolution pMon "ts" [] "report" "gibberish" (by decide)
      (fun x r h => by
        by_cases hx : x = "next monday"
        · simp [pMon, hx] at h
          subst h
          decide
        · simp [pMon, hx] at h)).1 rfl,
   (addTask_resolution pMon "ts" [] "report" "next monday" (by decide)
      (fun x r h => by
        by_cases hx : x = "next monday"
        · simp [pMon, hx] at h
          subst h
          decide
        · simp [pMon, hx] at h)).2 "2025-10-20" rfl⟩

/-- C5.  complete on an id absent from the store returns the not-found
error and leaves the store exactly as it was; on a present id it returns a
task marked done with completed_at stamped by the current timestamp, and
that task is in the new store. -/
theorem completeTask_spec (now : String) (tasks : List Task) (i : Nat) :
    ((∀ t ∈ tasks, t.id ≠ i) →
      completeTask now tasks i =
        (tasks, Except.error ("Task with ID " ++ toString i ++ " not found."))) ∧
    ((∃ t ∈ tasks, t.id = i) →
      ∃ t', (completeTask now tasks i).2 = Except.ok t' ∧
        t'.done = true ∧ t'.completed_at = some now ∧
        t' ∈ (completeTask now tasks i).1) := by
  induction tasks with
  | nil => simp [completeTask]
  | cons t ts ih =>
    constructor
    · intro h
      have ht : t.id ≠ i := h t (by simp)
      have := ih.1 (fun u hu => h u (by simp [hu]))
      simp only [completeTask, if_neg ht, this]
    · intro h
      by_cases ht : t.id = i
      · refine ⟨{ t with done := true, completed_at := some now }, ?_, rfl,
          rfl, ?_⟩
        · simp [completeTask, if_pos ht]
        · simp [completeTask, if_pos ht]
      · obtain ⟨u, hu, hui⟩ := h
        rcases List.mem_cons.mp hu with h1 | h1
        · exact absurd (h1 ▸ hui) ht
        · obtain ⟨t', h2, h3, h4, h5⟩ := ih.2 ⟨u, h1, hui⟩
          exact ⟨t', by simp [completeTask, if_neg ht, h2],
            h3, h4, by simp [completeTask, if_neg ht, h5]⟩

/-- Witness for C5: completing id 3 in a one-task store with id 1 is a
no-op error with the store unchanged; completing id 1 stamps the task. -/
theorem completeTask_spec_witness :
    completeTask "2025-10-15T10:00:00" [⟨1, "a", none, false, "c", none⟩] 3 =
      ([⟨1, "a", none, false, "c", none⟩],
        Except.error "Task with ID 3 not found.") ∧
    ∃ t', (completeTask "2025-10-15T10:00:00"
        [⟨1, "a", none, false, "c", none⟩] 1).2 = Except.ok t' ∧
      t'.done = true ∧ t'.completed_at = some "2025-10-15T10:00:00" ∧
      t' ∈ (completeTask "2025-10-15T10:00:00"
        [⟨1, "a", none, false, "c", none⟩] 1).1 :=
  ⟨(completeTask_spec "2025-10-15T10:00:00"
      [⟨1, "a", none, false, "c", none⟩] 3).1 (by decide),
   (completeTask_spec "2025-10-15T10:00:00"
      [⟨1, "a", none, false, "c", none⟩] 1).2
     ⟨⟨1, "a", none, false, "c", none⟩, by decide, rfl⟩⟩

/-- C6.  The claim says list always returns tasks ordered by id ascending.
The MongoDB backend sorts, but list_tasks of src/server.py returns the
stored array in file order, and because add_task hands out id
len(tasks) + 1, a reachable store — five adds, four deletes, one add —
holds the file order [5, 2], which list returns unsorted. -/
theorem listTasks_not_sorted_by_id :
    ((listTasks ((addTask pNone "t" ((deleteTask ((deleteTask ((deleteTask
        ((deleteTask ((addTask pNone "t" ((addTask pNone "t" ((addTask pNone "t"
        ((addTask pNone "t" ((addTask pNone "t" [] "a" none).1) "b" none).1)
        "c" none).1) "d" none).1) "e" none).1) 1).1) 2).1) 3).1) 4).1)
        "f" none).1)).1).map Task.id = [5, 2] ∧
    ¬ List.Sorted (· ≤ ·) (((listTasks ((addTask pNone "t" ((deleteTask
        ((deleteTask ((deleteTask ((deleteTask ((addTask pNone "t"
        ((addTask pNone "t" ((addTask pNone "t" ((addTask pNone "t"
        ((addTask pNone "t" [] "a" none).1) "b" none).1) "c" none).1)
        "d" none).1) "e" none).1) 1).1) 2).1) 3).1) 4).1) "f" none).1)).1).map
        Task.id) := by
  constructor
  · rfl
  · intro h
    rw [show (((listTasks ((addTask pNone "t" ((deleteTask ((deleteTask
        ((deleteTask ((deleteTask ((addTask pNone "t" ((addTask pNone "t"
        ((addTask pNone "t" ((addTask pNone "t" ((addTask pNone "t" [] "a"
        none).1) "b" none).1) "c" none).1) "d" none).1) "e" none).1) 1).1)
        2).1) 3).1) 4).1) "f" none).1)).1).map Task.id) = [5, 2] from rfl]
        at h
    have := (List.sorted_cons.mp h).1 2 (by simp)
    omega

/-- C7.  summarize places a task in overdue exactly when the task is in the
store, pending, carries a (truthy) due date, and that due-date string is
lexicographically less than the current YYYY-MM-DD string; consequently a
pending task whose due date equals or exceeds today never appears in
overdue. -/
theorem summarize_overdue_iff (today : String) (tasks : List Task) (t : Task) :
    (t ∈ (summarizeTasks today tasks).overdue ↔
      t ∈ tasks ∧ t.done = false ∧
        ∃ d, t.due_date = some d ∧ d ≠ "" ∧ pyStrLt d today = true) ∧
    (t ∈ tasks → t.done = false → ∀ d, t.due_date = some d →
      pyStrLt d today = false →
      t ∉ (summarizeTasks today tasks).overdue) := by
  have hmain : t ∈ (summarizeTasks today tasks).overdue ↔
      t ∈ tasks ∧ t.done = false ∧
        ∃ d, t.due_date = some d ∧ d ≠ "" ∧ pyStrLt d today = true := by
    simp only [summarizeTasks, List.mem_filter, Bool.and_eq_true,
      Bool.not_eq_true']
    constructor
    · rintro ⟨⟨ht, hdone⟩, htr, hlt⟩
      cases hdu : t.due_date with
      | none => rw [hdu] at htr; exact absurd htr (by simp [dueTruthy])
      | some d =>
        rw [hdu] at htr hlt
        refine ⟨ht, hdone, d, rfl, ?_, ?_⟩
        · simpa [dueTruthy] using htr
        · simpa using hlt
    · rintro ⟨ht, hdone, d, hdu, hne, hlt⟩
      exact ⟨⟨ht, hdone⟩, by simp [hdu, dueTruthy, hne],
        by simp [hdu, hlt]⟩
  refine ⟨hmain, ?_⟩
  intro ht hdone d hdu hge hmem
  obtain ⟨-, -, d', hd', -, hlt'⟩ := hmain.mp hmem
  rw [hdu] at hd'
  rw [Option.some.inj hd'] at hge
  exact absurd hlt' (by simp [hge])

/-- Witness for C7, after the example of the specification: with today
2025-10-15, a pending task due 2025-10-10 is in overdue and a pending task
due 2025-10-20 is not. -/
theorem summarize_overdue_iff_witness :
    (⟨1, "late", some "2025-10-10", false, "c", none⟩ : Task) ∈
      (summarizeTasks "2025-10-15"
        [⟨1, "late", some "2025-10-10", false, "c", none⟩,
         ⟨2, "soon", some "2025-10-20", false, "c", none⟩]).overdue ∧
    (⟨2, "soon", some "2025-10-20", false, "c", none⟩ : Task) ∉
      (summarizeTasks "2025-10-15"
        [⟨1, "late", some "2025-10-10", false, "c", none⟩,
         ⟨2, "soon", some "2025-10-20", false, "c", none⟩]).overdue :=
  ⟨(summarize_overdue_iff "2025-10-15" _ _).1.mpr
    ⟨by simp, rfl, "2025-10-10", rfl, by decide, by rfl⟩,
   (summarize_overdue_iff "2025-10-15" _ _).2 (by simp) rfl
     "2025-10-20" rfl (by rfl)⟩

/-- C10.  For an id present in the store, delete removes exactly the first
task carrying that id and returns its snapshot: the store splits as
pre ++ t :: post with the result pre ++ post, every other position is
bytewise unchanged, and every task with a different id is still present. -/
theorem deleteTask_frame (tasks : List Task) (i : Nat)
    (h : ∃ t ∈ tasks, t.id = i) :
    ∃ t pre post, (deleteTask tasks i).2 = Except.ok t ∧ t.id = i ∧
      (∀ u ∈ pre, u.id ≠ i) ∧
      tasks = pre ++ t :: post ∧
      (deleteTask tasks i).1 = pre ++ post ∧
      ∀ u ∈ tasks, u.id ≠ i → u ∈ (deleteTask tasks i).1 := by
  induction tasks with
  | nil => simp at h
  | cons a ts ih =>
    by_cases ha : a.id = i
    · refine ⟨a, [], ts, ?_, ha, by simp, by simp, ?_, ?_⟩
      · simp [deleteTask, if_pos ha]
      · simp [deleteTask, if_pos ha]
      · intro u hu hui
        rcases List.mem_cons.mp hu with h1 | h1
        · exact absurd (h1 ▸ ha) hui
        · simpa [deleteTask, if_pos ha] using h1
    · obtain ⟨t0, ht0, ht0i⟩ := h
      rcases List.mem_cons.mp ht0 with h1 | h1
      · exact absurd (h1 ▸ ht0i) ha
      · obtain ⟨t, pre, post, e1, e2, e3, e4, e5, e6⟩ := ih ⟨t0, h1, ht0i⟩
        refine ⟨t, a :: pre, post, ?_, e2, ?_, ?_, ?_, ?_⟩
        · simpa [deleteTask, if_neg ha] using e1
        · intro u hu
          rcases List.mem_cons.mp hu with h2 | h2
          · exact h2 ▸ ha
          · exact e3 u h2
        · simp [e4]
        · simp [deleteTask, if_neg ha, e5]
        · intro u hu hui
          rcases List.mem_cons.mp hu with h2 | h2
          · subst h2
            simp [deleteTask, if_neg ha]
          · simp only [deleteTask, if_neg ha, List.mem_cons]
            exact Or.inr (e6 u h2 hui)

/-- Witness for C10: deleting id 1 from a two-task store returns the id-1
snapshot and leaves exactly the id-2 task, unchanged. -/
theorem deleteTask_frame_witness :
    ∃ t pre post,
      (deleteTask [⟨1, "a", some "2025-10-10", false, "c", none⟩,
        ⟨2, "b", none, true, "c", some "d"⟩] 1).2 = Except.ok t ∧
      t.id = 1 ∧ (∀ u ∈ pre, u.id ≠ 1) ∧
      [⟨1, "a", some "2025-10-10", false, "c", none⟩,
        ⟨2, "b", none, true, "c", some "d"⟩] = pre ++ t :: post ∧
      (deleteTask [⟨1, "a", some "2025-10-10", false, "c", none⟩,
        ⟨2, "b", none, true, "c", some "d"⟩] 1).1 = pre ++ post ∧
      ∀ u ∈ [⟨1, "a", some "2025-10-10", false, "c", none⟩,
          (⟨2, "b", none, true, "c", some "d"⟩ : Task)], u.id ≠ 1 →
        u ∈ (deleteTask [⟨1, "a", some "2025-10-10", false, "c", none⟩,
          ⟨2, "b", none, true, "c", some "d"⟩] 1).1 :=
  deleteTask_frame
    [⟨1, "a", some "2025-10-10", false, "c", none⟩,
      ⟨2, "b", none, true, "c", some "d"⟩] 1
    ⟨⟨1, "a", some "2025-10-10", false, "c", none⟩, by decide, rfl⟩

/-- The body of tasks_by_range is symmetric in its two resolved endpoints:
the normalization swap makes the emitted record independent of the
argument order. -/
theorem rangeGo_comm (tasks : List BTask) (s0 e0 : Nat) :
    rangeGo tasks s0 e0 = rangeGo tasks e0 s0 := by
  by_cases h : e0 < s0
  · simp only [rangeGo, if_pos h, if_neg (show ¬ s0 < e0 by omega)]
  · by_cases h2 : s0 < e0
    · simp only [rangeGo, if_neg h, if_pos h2]
    · have : s0 = e0 := by omega
      subst this
      rfl

/-- Backend side of the range contract: in src/backend/server.py both
endpoint texts resolve through the same cascade at the same reference
instant, so when both resolve, tasks_by_range succeeds, the emitted range
is ordered ascending (endpoints swapped when the start resolved after the
end), the reported day span is (end - start) + 1, and the call with the
two arguments swapped returns the same task list. -/
theorem tasksByRange_spec (dp sd : String → Option Nat) (now : Nat)
    (tasks : List BTask) (a b : String) (s0 e0 : Nat)
    (ha' : a ≠ "") (hb' : b ≠ "")
    (ha : parseCascade dp sd now a = some s0)
    (hb : parseCascade dp sd now b = some e0) :
    ∃ r r', tasksByRange dp sd now tasks a (some b) = Except.ok r ∧
      tasksByRange dp sd now tasks b (some a) = Except.ok r' ∧
      r.start_date ≤ r.end_date ∧
      r.days = (r.end_date - r.start_date) + 1 ∧
      r'.tasks = r.tasks := by
  refine ⟨rangeGo tasks s0 e0, rangeGo tasks e0 s0, ?_, ?_, ?_, rfl, ?_⟩
  · simp [tasksByRange, ha, hb, hb']
  · simp [tasksByRange, ha, hb, ha']
  · by_cases h : e0 < s0 <;> simp [rangeGo, h] <;> omega
  · rw [rangeGo_comm]

/-- Instance of the backend range lemma at reference Wednesday
2025-10-15: endpoints "next monday" (2025-10-20, day 739849) and
"end of week" (2025-10-17, day 739846), over a three-document store. -/
theorem tasksByRange_spec_witness :
    ∃ r r', tasksByRange dpNone dpNone 739844
        [⟨1, "x", some 739846, false, "c", none⟩,
         ⟨2, "y", none, false, "c", none⟩,
         ⟨3, "z", some 739900, false, "c", none⟩]
        "next monday" (some "end of week") = Except.ok r ∧
      tasksByRange dpNone dpNone 739844
        [⟨1, "x", some 739846, false, "c", none⟩,
         ⟨2, "y", none, false, "c", none⟩,
         ⟨3, "z", some 739900, false, "c", none⟩]
        "end of week" (some "next monday") = Except.ok r' ∧
      r.start_date ≤ r.end_date ∧
      r.days = (r.end_date - r.start_date) + 1 ∧
      r'.tasks = r.tasks :=
  tasksByRange_spec dpNone dpNone 739844
    [⟨1, "x", some 739846, false, "c", none⟩,
     ⟨2, "y", none, false, "c", none⟩,
     ⟨3, "z", some 739900, false, "c", none⟩]
    "next monday" "end of week" 739849 739846
    (by decide) (by decide) (by rfl) (by rfl)

/-- C4.  The claim says by_range with its two arguments swapped returns
the same task set.  That holds in the MongoDB backend (lemma
tasksByRange_spec above), but tasks_by_range of src/server.py anchors the
end text at RELATIVE_BASE = parsed_start instead of now, so swapping the
arguments changes the anchor of a relative phrase.  At reference
Wednesday 2025-10-15 (day 739844) with a task due 2025-10-16 (739845):
("tomorrow", "in 3 days") resolves to the range 2025-10-16..2025-10-19
and returns the task, while the swapped ("in 3 days", "tomorrow")
resolves to 2025-10-18..2025-10-19 and returns the empty set — the two
calls disagree, refuting swap-invariance for this implementation. -/
theorem fileTasksByRange_swap_changes_result :
    fileTasksByRange dpRel 739844
        [⟨1, "x", some 739845, false, "c", none⟩]
        "tomorrow" (some "in 3 days") =
      Except.ok ⟨739845, 739848,
        [⟨1, "x", some 739845, false, "c", none⟩], 1, 4⟩ ∧
    fileTasksByRange dpRel 739844
        [⟨1, "x", some 739845, false, "c", none⟩]
        "in 3 days" (some "tomorrow") =
      Except.ok ⟨739847, 739848, [], 0, 2⟩ ∧
    ([⟨1, "x", some 739845, false, "c", none⟩] : List BTask) ≠ [] :=
  ⟨rfl, rfl, by decide⟩

/-- Tasks surviving a delete were already in the store. -/
theorem deleteTask_mem {i : Nat} {t : Task} :
    ∀ {tasks : List Task}, t ∈ (deleteTask tasks i).1 → t ∈ tasks := by
  intro tasks
  induction tasks with
  | nil => simp [deleteTask]
  | cons a ts ih =>
    by_cases ha : a.id = i
    · intro h
      rw [show (deleteTask (a :: ts) i).1 = ts by simp [deleteTask, ha]] at h
      exact List.mem_cons_of_mem a h
    · intro h
      rw [show (deleteTask (a :: ts) i).1 = a :: (deleteTask ts i).1 by
        simp [deleteTask, ha]] at h
      rcases List.mem_cons.mp h with h1 | h1
      · exact h1 ▸ List.mem_cons_self a ts
      · exact List.mem_cons_of_mem a (ih h1)

/-- Tasks in the store after a complete are either untouched originals or
one original marked done with completed_at stamped. -/
theorem completeTask_mem {now : String} {i : Nat} {t : Task} :
    ∀ {tasks : List Task}, t ∈ (completeTask now tasks i).1 →
      t ∈ tasks ∨ ∃ u, u ∈ tasks ∧
        t = { u with done := true, completed_at := some now } := by
  intro tasks
  induction tasks with
  | nil => simp [completeTask]
  | cons a ts ih =>
    by_cases ha : a.id = i
    · intro h
      rw [show (completeTask now (a :: ts) i).1 =
          { a with done := true, completed_at := some now } :: ts by
        simp [completeTask, ha]] at h
      rcases List.mem_cons.mp h with h1 | h1
      · exact Or.inr ⟨a, List.mem_cons_self a ts, h1⟩
      · exact Or.inl (List.mem_cons_of_mem a h1)
    · intro h
      rw [show (completeTask now (a :: ts) i).1 =
          a :: (completeTask now ts i).1 by simp [completeTask, ha]] at h
      rcases List.mem_cons.mp h with h1 | h1
      · exact Or.inl (h1 ▸ List.mem_cons_self a ts)
      · rcases ih h1 with h2 | ⟨u, hu, he⟩
        · exact Or.inl (List.mem_cons_of_mem a h2)
        · exact Or.inr ⟨u, List.mem_cons_of_mem a hu, he⟩

/-- The possible shapes of the store returned by add: unchanged on
resolution failure, otherwise the original store with exactly one fresh
task appended, created not-done and without completed_at. -/
theorem addTask_fst (parse : String → Option String) (c : String)
    (s : List Task) (title : String) (due : Option String) :
    (addTask parse c s title due).1 = s ∨
    ∃ pd, (addTask parse c s title due).1 =
      s ++ [⟨s.length + 1, title, pd, false, c, none⟩] := by
  rcases due with _ | d
  · exact Or.inr ⟨none, rfl⟩
  · by_cases hd : d = ""
    · exact Or.inr ⟨none, by simp [addTask, hd]⟩
    · cases hp : parse d with
      | none => exact Or.inl (by simp [addTask, hd, hp])
      | some r => exact Or.inr ⟨some r, by simp [addTask, hd, hp]⟩

/-- C9.  Every store state reachable through the operations of
src/server.py satisfies the invariant: a task record carries completed_at
exactly when its done flag is true.  add creates tasks with done = false
and no completed_at, and only complete stamps completed_at (together with
setting done). -/
theorem reach_completed_iff_done {s : List Task} (h : Reach s) :
    ∀ t ∈ s, (t.completed_at ≠ none ↔ t.done = true) := by
  induction h with
  | init => simp
  | add parse c title due h ih =>
    intro t ht
    rcases addTask_fst parse c _ title due with he | ⟨pd, he⟩
    · rw [he] at ht
      exact ih t ht
    · rw [he] at ht
      rcases List.mem_append.mp ht with h1 | h1
      · exact ih t h1
      · rw [List.mem_singleton.mp h1]
        simp
  | del i h ih =>
    intro t ht
    exact ih t (deleteTask_mem ht)
  | compl now i h ih =>
    intro t ht
    rcases completeTask_mem ht with h1 | ⟨u, _, he⟩
    · exact ih t h1
    · rw [he]
      simp

/-- Witness for C9: the state reached by a single add from the empty store
is the one-task list, and that task satisfies the invariant. -/
theorem reach_completed_iff_done_witness :
    (⟨1, "a", none, false, "c", none⟩ : Task).completed_at ≠ none ↔
      (⟨1, "a", none, false, "c", none⟩ : Task).done = true :=
  reach_completed_iff_done (Reach.add pNone "c" "a" none Reach.init)
    ⟨1, "a", none, false, "c", none⟩ (by decide)

end TaskAssistant
